/-
  Verification of the particle-field simulator and peripheral widgets of
  the vrathi101.github.io front-end (src/js/main.js, src/js/particles.js,
  src/js/scroll-animations.js).

  The physics of `ParticlePhysics` (the variant of src/js/main.js with the
  ambient oscillator, particleCount 250) is embedded over the real numbers:
  JavaScript's Math.sqrt / Math.sin / Math.cos / Math.atan2 become
  Real.sqrt / Real.sin / Real.cos and the complex argument.  The discrete
  widgets (resize debounce, start/stop flag, reveal observer, input-event
  handlers) are embedded as computable state machines.
-/
import Mathlib

open Classical

noncomputable section

namespace ParticlePhysics

/-! ## Physics constants (constructor of the second `ParticlePhysics` class,
src/js/main.js lines 444-457). -/

def particleCount : ℕ := 250

def friction : ℝ := 0.98

def attractionStrength : ℝ := 1.2

def returnStrength : ℝ := 0.01

def maxSpeed : ℝ := 8

def connectionDistance : ℝ := 150

def ambientForce : ℝ := 0.02

/-- One particle, as pushed by `createParticles` (src/js/main.js 483-495). -/
structure Particle where
  x : ℝ
  y : ℝ
  originX : ℝ
  originY : ℝ
  vx : ℝ
  vy : ℝ
  radius : ℝ
  mass : ℝ
  hue : ℝ
  opacity : ℝ
  phase : ℝ

/-- The shared mouse state `{x: null, y: null, isDown: false, radius: 150}`.
`x` and `y` are always assigned together in the handlers, so the pair is
modelled as a single `Option`. -/
structure Mouse where
  pos : Option (ℝ × ℝ)
  isDown : Bool
  radius : ℝ

/-- Initial mouse state from the constructor. -/
def initMouse : Mouse := { pos := none, isDown := false, radius := 150 }

/-- JavaScript's `Math.atan2 dy dx` is the argument of the complex number
`dx + dy·i` (same branch cuts, same value `0` at the origin). -/
def atan2 (y x : ℝ) : ℝ := Complex.arg ⟨x, y⟩

/-- The source's `Math.sqrt(dx*dx + dy*dy)` for the vector from `p` to `(mx, my)`. -/
def distTo (p : Particle) (mx my : ℝ) : ℝ :=
  Real.sqrt ((mx - p.x) * (mx - p.x) + (my - p.y) * (my - p.y))

/-- Current speed `Math.sqrt(p.vx*p.vx + p.vy*p.vy)`. -/
def speed (p : Particle) : ℝ := Real.sqrt (p.vx * p.vx + p.vy * p.vy)

/-! ## The seven stages of `updateParticles` (src/js/main.js 577-641),
one definition per source block. -/

/-- Ambient motion block: per-particle phase-offset sin/cos oscillator of
the elapsed time, scaled by `ambientForce`. -/
def ambientStep (time : ℝ) (p : Particle) : Particle :=
  { p with vx := p.vx + Real.sin (time * 0.5 + p.phase) * ambientForce,
           vy := p.vy + Real.cos (time * 0.3 + p.phase) * ambientForce }

/-- Body of the mouse-interaction block for a present pointer at
`(mx, my)`: inside the interaction radius the force magnitude is
`(radius - distance) / radius`, applied along `atan2` of the
particle-to-pointer vector — added scaled by `attractionStrength * mass`
when the mouse is down (attraction), subtracted scaled by 0.3 otherwise. -/
def mouseForce (mx my : ℝ) (down : Bool) (radius : ℝ) (p : Particle) : Particle :=
  let dx := mx - p.x
  let dy := my - p.y
  let distance := Real.sqrt (dx * dx + dy * dy)
  if distance < radius then
    let force := (radius - distance) / radius
    let angle := atan2 dy dx
    if down then
      { p with vx := p.vx + Real.cos angle * force * attractionStrength * p.mass,
               vy := p.vy + Real.sin angle * force * attractionStrength * p.mass }
    else
      { p with vx := p.vx - Real.cos angle * force * 0.3,
               vy := p.vy - Real.sin angle * force * 0.3 }
  else p

/-- Mouse interaction block: skipped entirely when the pointer is absent
(`this.mouse.x !== null` guard). -/
def mouseStep (m : Mouse) (p : Particle) : Particle :=
  match m.pos with
  | none => p
  | some (mx, my) => mouseForce mx my m.isDown m.radius p

/-- Return-to-origin block: linear spring `(origin - position) * returnStrength`
added to velocity. -/
def springStep (p : Particle) : Particle :=
  { p with vx := p.vx + (p.originX - p.x) * returnStrength,
           vy := p.vy + (p.originY - p.y) * returnStrength }

/-- Friction block: velocity multiplied by the constant `friction`. -/
def frictionStep (p : Particle) : Particle :=
  { p with vx := p.vx * friction, vy := p.vy * friction }

/-- Speed-limit block: when the speed exceeds `maxSpeed`, each component is
divided by the speed and multiplied by `maxSpeed`. -/
def clampStep (p : Particle) : Particle :=
  let s := Real.sqrt (p.vx * p.vx + p.vy * p.vy)
  if maxSpeed < s then
    { p with vx := p.vx / s * maxSpeed, vy := p.vy / s * maxSpeed }
  else p

/-- Position-update block: Euler step `position += velocity`. -/
def integrateStep (p : Particle) : Particle :=
  { p with x := p.x + p.vx, y := p.y + p.vy }

/-- First boundary-bounce if-block: `x` outside `[0, w]` multiplies `vx`
by `-0.5` and clamps `x` with `max 0 (min w x)`. -/
def bounceX (w : ℝ) (p : Particle) : Particle :=
  if p.x < 0 ∨ w < p.x then
    { p with vx := p.vx * (-0.5), x := max 0 (min w p.x) } else p

/-- Second boundary-bounce if-block, same for `y` against `[0, h]`. -/
def bounceY (h : ℝ) (p : Particle) : Particle :=
  if p.y < 0 ∨ h < p.y then
    { p with vy := p.vy * (-0.5), y := max 0 (min h p.y) } else p

/-- Boundary-bounce block: the two if-statements in source order. -/
def bounceStep (w h : ℝ) (p : Particle) : Particle := bounceY h (bounceX w p)

/-- The per-particle body of `updateParticles`, translated block by block
in source order (src/js/main.js 580-640). -/
def updateParticle (time w h : ℝ) (m : Mouse) (p : Particle) : Particle :=
  bounceStep w h (integrateStep (clampStep (frictionStep (springStep
    (mouseStep m (ambientStep time p))))))

/-- The full `updateParticles` maps the body over the whole collection; `time` is
read once per frame. -/
def updateParticles (time w h : ℝ) (m : Mouse) (ps : List Particle) :
    List Particle :=
  ps.map (updateParticle time w h m)

/-! ## Connection rendering (`drawConnections`, src/js/main.js 673-695). -/

/-- Distance between two particles, `Math.sqrt(dx*dx + dy*dy)`. -/
def pdist (p q : Particle) : ℝ :=
  Real.sqrt ((p.x - q.x) * (p.x - q.x) + (p.y - q.y) * (p.y - q.y))

/-- One stroked line: endpoints, blended hue, alpha. -/
structure Connection where
  x1 : ℝ
  y1 : ℝ
  x2 : ℝ
  y2 : ℝ
  hue : ℝ
  opacity : ℝ

/-- The linear-falloff opacity of a connection line at distance `d`
(src/js/main.js 681). -/
def connOpacity (d : ℝ) : ℝ := (1 - d / connectionDistance) * 0.35

/-- The inner-loop body: the line drawn for the ordered pair `(p, q)`,
or `none` when the particles are at least `connectionDistance` apart. -/
def linkOf (p q : Particle) : Option Connection :=
  let dx := p.x - q.x
  let dy := p.y - q.y
  let distance := Real.sqrt (dx * dx + dy * dy)
  if distance < connectionDistance then
    some { x1 := p.x, y1 := p.y, x2 := q.x, y2 := q.y,
           hue := (p.hue + q.hue) / 2,
           opacity := (1 - distance / connectionDistance) * 0.35 }
  else none

/-- The double loop `for i; for j = i+1` as a list of drawn lines. -/
def drawConnections : List Particle → List Connection
  | [] => []
  | p :: rest => rest.filterMap (linkOf p) ++ drawConnections rest

/-! ## Particle seeding (`createParticles`, src/js/main.js 478-497).
`Math.random()` is modelled as a stream `rng : ℕ → ℝ` of draws consumed in
source order, seven per particle. -/

/-- The object literal pushed for particle `i`. -/
def mkParticle (rng : ℕ → ℝ) (w h : ℝ) (i : ℕ) : Particle :=
  let x := rng (7 * i) * w
  let y := rng (7 * i + 1) * h
  { x := x, y := y, originX := x, originY := y, vx := 0, vy := 0,
    radius := rng (7 * i + 2) * 2.5 + 1.5,
    mass := rng (7 * i + 3) * 0.5 + 0.5,
    hue := rng (7 * i + 4) * 60 + 220,
    opacity := rng (7 * i + 5) * 0.5 + 0.5,
    phase := rng (7 * i + 6) * Real.pi * 2 }

/-- The whole `createParticles` empties the collection and pushes `particleCount`
fresh particles; the prior collection is never read. -/
def createParticles (rng : ℕ → ℝ) (w h : ℝ) : List Particle :=
  (List.range particleCount).map (mkParticle rng w h)

/-- The per-instance geometry and particle collection touched by the
debounced resize callback. -/
structure PState where
  w : ℝ
  h : ℝ
  particles : List Particle

/-- The debounced resize callback body: `this.resize(); this.createParticles()`
(src/js/main.js 505-507). -/
def handleResize (rng : ℕ → ℝ) (newW newH : ℝ) (_s : PState) : PState :=
  { w := newW, h := newH, particles := createParticles rng newW newH }

/-! ## Frame loop flag and scheduling (`animate`/`start`/`stop`,
src/js/main.js 564-575 and 731-743).  `requestAnimationFrame` hands out
ids from a counter; at most one callback of this instance is in flight, so
the scheduler's pending slot is an `Option`.  `cancelAnimationFrame` on an
id that is not pending is a no-op. -/

structure Sim where
  isRunning : Bool
  animationId : Option ℕ
  pending : Option ℕ
  nextId : ℕ
  particles : List Particle

/-- The `animate` loop body: bail out unless running, run one frame, request the next. -/
def animate (time w h : ℝ) (m : Mouse) (s : Sim) : Sim :=
  if s.isRunning then
    { s with particles := updateParticles time w h m s.particles,
             animationId := some s.nextId,
             pending := some s.nextId,
             nextId := s.nextId + 1 }
  else s

/-- The `start()` method: only when not running, set the flag and call `animate`. -/
def start (time w h : ℝ) (m : Mouse) (s : Sim) : Sim :=
  if s.isRunning then s else animate time w h m { s with isRunning := true }

/-- The `stop()` method: clear the flag; when `animationId` holds an id, cancel it.
`animationId` itself is not nulled by the source. -/
def stop (s : Sim) : Sim :=
  let s1 : Sim := { s with isRunning := false }
  match s.animationId with
  | some id => if s1.pending = some id then { s1 with pending := none } else s1
  | none => s1

/-! ## Input-event handlers (src/js/main.js 510-562).  `mouseleave` and
`touchend` are bound to `handleMouseUp`; the touch handlers guard on
`e.touches.length > 0`, modelled by an `Option` payload. -/

inductive PEvent where
  | mouseDown (x y : ℝ)
  | mouseMove (x y : ℝ)
  | mouseUp
  | mouseLeave
  | touchStart (t : Option (ℝ × ℝ))
  | touchMove (t : Option (ℝ × ℝ))
  | touchEnd

def handleEvent (m : Mouse) : PEvent → Mouse
  | .mouseDown x y => { m with isDown := true, pos := some (x, y) }
  | .mouseMove x y => { m with pos := some (x, y) }
  | .mouseUp => { m with isDown := false }
  | .mouseLeave => { m with isDown := false }
  | .touchStart (some (x, y)) => { m with isDown := true, pos := some (x, y) }
  | .touchStart none => m
  | .touchMove (some (x, y)) => { m with pos := some (x, y) }
  | .touchMove none => m
  | .touchEnd => { m with isDown := false }

def handleEvents (m : Mouse) : List PEvent → Mouse
  | [] => m
  | e :: rest => handleEvents (handleEvent m e) rest

end ParticlePhysics

end

/-! ## Resize debounce (src/js/main.js 500-508): every resize event clears
the pending timeout and schedules a new one `debounceDelay` later; a timer
fires unless a later event arrives strictly before its fire time. -/

namespace ResizeDebounce

def debounceDelay : ℕ := 200

/-- Fire times of the timers that survive, for resize events at the given
nondecreasing timestamps. -/
def reseedTimes : List ℕ → List ℕ
  | [] => []
  | [t] => [t + debounceDelay]
  | t :: t' :: rest =>
      if t' < t + debounceDelay then reseedTimes (t' :: rest)
      else (t + debounceDelay) :: reseedTimes (t' :: rest)

end ResizeDebounce

/-! ## Scroll reveal observer (src/js/scroll-animations.js 30-47).
Elements are identified by naturals; the callback only receives entries
for still-observed targets, adds the `visible` class on intersection and
unobserves the target. -/

namespace ScrollAnimator

structure Reveal where
  visible : ℕ → Bool
  observed : ℕ → Bool

/-- Delivery of one intersection entry for target `e`. -/
def processEntry (s : Reveal) (e : ℕ) (inter : Bool) : Reveal :=
  if s.observed e && inter then
    { visible := fun x => if x = e then true else s.visible x,
      observed := fun x => if x = e then false else s.observed x }
  else s

def processEntries (s : Reveal) : List (ℕ × Bool) → Reveal
  | [] => s
  | ev :: rest => processEntries (processEntry s ev.1 ev.2) rest

/-- Number of `false → true` flips of `e`'s visible flag along a run. -/
def transitionCount (s : Reveal) (e : ℕ) : List (ℕ × Bool) → ℕ
  | [] => 0
  | ev :: rest =>
      let s1 := processEntry s ev.1 ev.2
      (if s.visible e = false ∧ s1.visible e = true then 1 else 0) +
        transitionCount s1 e rest

end ScrollAnimator

/-! ## Theme interpolator. -/

namespace ThemeSlider

@[ext]
structure RGB where
  r : ℚ
  g : ℚ
  b : ℚ

@[ext]
structure RGBA where
  r : ℚ
  g : ℚ
  b : ℚ
  a : ℚ

/-- Modelled from the spec: the theme slider's color blend (the slider
script is not under src/).  "given a normalized slider value in [0,100],
linearly interpolate a fixed set of named color pairs (night-value,
day-value) in RGB space … at parameter `t = value/100`". -/
def interpolate (cA cB : RGB) (t : ℚ) : RGB :=
  { r := cA.r + (cB.r - cA.r) * t,
    g := cA.g + (cB.g - cA.g) * t,
    b := cA.b + (cB.b - cA.b) * t }

/-- Modelled from the spec: the RGBA variant, "separately in RGBA space
when an alpha channel is present". -/
def interpolateA (cA cB : RGBA) (t : ℚ) : RGBA :=
  { r := cA.r + (cB.r - cA.r) * t,
    g := cA.g + (cB.g - cA.g) * t,
    b := cA.b + (cB.b - cA.b) * t,
    a := cA.a + (cB.a - cA.a) * t }

/-- Modelled from the spec: the slider-value-to-parameter map `t = value/100`. -/
def tOfValue (value : ℚ) : ℚ := value / 100

end ThemeSlider

/-! ## Example states used by the witness theorems. -/

namespace ParticlePhysics

/-- A particle moving at speed 10 (velocity (6, 8)), faster than `maxSpeed`. -/
noncomputable def pFast : Particle :=
  { x := 0, y := 0, originX := 0, originY := 0, vx := 6, vy := 8,
    radius := 1, mass := 1, hue := 220, opacity := 1, phase := 0 }

/-- A particle at the origin at rest, mass 1/2. -/
noncomputable def pRest : Particle :=
  { x := 0, y := 0, originX := 0, originY := 0, vx := 0, vy := 0,
    radius := 1, mass := 1/2, hue := 220, opacity := 1, phase := 0 }

/-- An engaged pointer at (30, 40): distance 50 from the origin. -/
noncomputable def mouseEngaged : Mouse :=
  { pos := some (30, 40), isDown := true, radius := 150 }

/-- A particle out of bounds on both axes at (-10, -10). -/
noncomputable def pOut : Particle :=
  { x := -10, y := -10, originX := 0, originY := 0, vx := 2, vy := 3,
    radius := 1, mass := 1, hue := 220, opacity := 1, phase := 0 }

/-- A particle at (30, 40), hue 240: at distance 50 from `pRest`. -/
noncomputable def pB : Particle :=
  { x := 30, y := 40, originX := 30, originY := 40, vx := 0, vy := 0,
    radius := 1, mass := 1, hue := 240, opacity := 1, phase := 0 }

/-- The connection line drawn between `pRest` and `pB`. -/
noncomputable def cEx : Connection :=
  { x1 := 0, y1 := 0, x2 := 30, y2 := 40, hue := (220 + 240) / 2,
    opacity := (1 - 50 / 150) * 0.35 }

/-- The same pointer, released. -/
noncomputable def mouseReleased : Mouse :=
  { pos := some (30, 40), isDown := false, radius := 150 }

end ParticlePhysics

/-! # Theorems -/

namespace ParticlePhysics

/-! ### Generic facts about the integration stages. -/

lemma speed_def (p : Particle) :
    speed p = Real.sqrt (p.vx * p.vx + p.vy * p.vy) := rfl

lemma speed_nonneg (p : Particle) : 0 ≤ speed p := Real.sqrt_nonneg _

lemma maxSpeed_pos : (0 : ℝ) < maxSpeed := by norm_num [maxSpeed]

lemma clampStep_def (p : Particle) :
    clampStep p =
      if maxSpeed < speed p then
        { p with vx := p.vx / speed p * maxSpeed,
                 vy := p.vy / speed p * maxSpeed }
      else p := rfl

lemma clampStep_of_le (p : Particle) (h : speed p ≤ maxSpeed) :
    clampStep p = p := by
  rw [clampStep_def, if_neg (not_lt.mpr h)]

lemma sq_speed (p : Particle) : speed p * speed p = p.vx * p.vx + p.vy * p.vy := by
  rw [speed_def]
  exact Real.mul_self_sqrt (add_nonneg (mul_self_nonneg _) (mul_self_nonneg _))

/-- When the speed exceeds `maxSpeed`, the clamp rescales the velocity to
magnitude exactly `maxSpeed` by a positive scalar (direction preserved). -/
lemma clampStep_exact (p : Particle) (h : maxSpeed < speed p) :
    speed (clampStep p) = maxSpeed ∧
      ∃ c : ℝ, 0 < c ∧ (clampStep p).vx = c * p.vx ∧ (clampStep p).vy = c * p.vy := by
  have hs : 0 < speed p := maxSpeed_pos.trans h
  have hcl : clampStep p = { p with vx := p.vx / speed p * maxSpeed,
                                    vy := p.vy / speed p * maxSpeed } := by
    rw [clampStep_def, if_pos h]
  have hsq := sq_speed p
  constructor
  · rw [hcl, speed_def]
    have hsum : (p.vx / speed p * maxSpeed) * (p.vx / speed p * maxSpeed) +
        (p.vy / speed p * maxSpeed) * (p.vy / speed p * maxSpeed) =
        maxSpeed * maxSpeed := by
      field_simp
      nlinarith [hsq]
    rw [hsum]
    exact Real.sqrt_mul_self maxSpeed_pos.le
  · refine ⟨maxSpeed / speed p, div_pos maxSpeed_pos hs, ?_, ?_⟩ <;>
      rw [hcl] <;> field_simp <;> ring

lemma clampStep_speed_le (p : Particle) : speed (clampStep p) ≤ maxSpeed := by
  by_cases h : maxSpeed < speed p
  · exact le_of_eq (clampStep_exact p h).1
  · rw [clampStep_of_le p (not_lt.mp h)]
    exact not_lt.mp h

lemma integrateStep_speed (p : Particle) : speed (integrateStep p) = speed p := rfl

lemma bounceX_vx (w : ℝ) (p : Particle) :
    (bounceX w p).vx = p.vx ∨ (bounceX w p).vx = p.vx * (-0.5) := by
  unfold bounceX
  split_ifs <;> simp

lemma bounceX_vy (w : ℝ) (p : Particle) : (bounceX w p).vy = p.vy := by
  unfold bounceX
  split_ifs <;> rfl

lemma bounceX_y (w : ℝ) (p : Particle) : (bounceX w p).y = p.y := by
  unfold bounceX
  split_ifs <;> rfl

lemma bounceY_vy (h : ℝ) (p : Particle) :
    (bounceY h p).vy = p.vy ∨ (bounceY h p).vy = p.vy * (-0.5) := by
  unfold bounceY
  split_ifs <;> simp

lemma bounceY_vx (h : ℝ) (p : Particle) : (bounceY h p).vx = p.vx := by
  unfold bounceY
  split_ifs <;> rfl

lemma bounceY_x (h : ℝ) (p : Particle) : (bounceY h p).x = p.x := by
  unfold bounceY
  split_ifs <;> rfl

lemma speed_le_of_components {p q : Particle}
    (hx : q.vx = p.vx ∨ q.vx = p.vx * (-0.5))
    (hy : q.vy = p.vy ∨ q.vy = p.vy * (-0.5)) : speed q ≤ speed p := by
  rw [speed_def, speed_def]
  apply Real.sqrt_le_sqrt
  rcases hx with hx | hx <;> rcases hy with hy | hy <;> rw [hx, hy] <;>
    nlinarith [mul_self_nonneg p.vx, mul_self_nonneg p.vy]

lemma bounceStep_speed_le (w h : ℝ) (p : Particle) :
    speed (bounceStep w h p) ≤ speed p := by
  unfold bounceStep
  apply speed_le_of_components
  · rw [bounceY_vx]
    exact bounceX_vx w p
  · rcases bounceY_vy h (bounceX w p) with h1 | h1 <;> rw [h1, bounceX_vy]
    · exact Or.inl rfl
    · exact Or.inr rfl

/-- C1. Speed-clamp invariant: after every per-particle update the speed is
at most `maxSpeed`, and whenever the speed exceeds `maxSpeed` during a step
the speed-limit block rescales the velocity to magnitude exactly `maxSpeed`
while preserving its direction (a positive scalar multiple). -/
theorem speed_clamp_invariant (time w h : ℝ) (m : Mouse) (p : Particle) :
    speed (updateParticle time w h m p) ≤ maxSpeed ∧
    (maxSpeed < speed p →
      speed (clampStep p) = maxSpeed ∧
      ∃ c : ℝ, 0 < c ∧ (clampStep p).vx = c * p.vx ∧ (clampStep p).vy = c * p.vy) := by
  constructor
  · have hb := bounceStep_speed_le w h
      (integrateStep (clampStep (frictionStep (springStep (mouseStep m (ambientStep time p))))))
    have hc := clampStep_speed_le (frictionStep (springStep (mouseStep m (ambientStep time p))))
    calc speed (updateParticle time w h m p)
        ≤ speed (integrateStep (clampStep (frictionStep (springStep
            (mouseStep m (ambientStep time p)))))) := hb
      _ = speed (clampStep (frictionStep (springStep (mouseStep m (ambientStep time p))))) :=
          integrateStep_speed _
      _ ≤ maxSpeed := hc
  · exact clampStep_exact p

/-! ### Boundary lemmas. -/

lemma bounceX_x_bounds (w : ℝ) (hw : 0 ≤ w) (p : Particle) :
    0 ≤ (bounceX w p).x ∧ (bounceX w p).x ≤ w := by
  unfold bounceX
  split_ifs with h1
  · exact ⟨le_max_left 0 _, max_le hw (min_le_left w p.x)⟩
  · push_neg at h1
    exact ⟨h1.1, h1.2⟩

lemma bounceY_y_bounds (h : ℝ) (hh : 0 ≤ h) (p : Particle) :
    0 ≤ (bounceY h p).y ∧ (bounceY h p).y ≤ h := by
  unfold bounceY
  split_ifs with h1
  · exact ⟨le_max_left 0 _, max_le hh (min_le_left h p.y)⟩
  · push_neg at h1
    exact ⟨h1.1, h1.2⟩

lemma bounceX_of_out (w : ℝ) (hw : 0 ≤ w) (p : Particle) (h : p.x < 0 ∨ w < p.x) :
    (bounceX w p).vx = p.vx * (-0.5) ∧ (bounceX w p).x = max 0 (min w p.x) ∧
      (p.x < 0 → (bounceX w p).x = 0) ∧ (w < p.x → (bounceX w p).x = w) := by
  unfold bounceX
  rw [if_pos h]
  refine ⟨rfl, rfl, ?_, ?_⟩
  · intro hlt
    show max 0 (min w p.x) = 0
    rw [min_eq_right (hlt.le.trans hw), max_eq_left hlt.le]
  · intro hgt
    show max 0 (min w p.x) = w
    rw [min_eq_left hgt.le, max_eq_right hw]

lemma bounceY_of_out (h : ℝ) (hh : 0 ≤ h) (p : Particle) (hy : p.y < 0 ∨ h < p.y) :
    (bounceY h p).vy = p.vy * (-0.5) ∧ (bounceY h p).y = max 0 (min h p.y) ∧
      (p.y < 0 → (bounceY h p).y = 0) ∧ (h < p.y → (bounceY h p).y = h) := by
  unfold bounceY
  rw [if_pos hy]
  refine ⟨rfl, rfl, ?_, ?_⟩
  · intro hlt
    show max 0 (min h p.y) = 0
    rw [min_eq_right (hlt.le.trans hh), max_eq_left hlt.le]
  · intro hgt
    show max 0 (min h p.y) = h
    rw [min_eq_left hgt.le, max_eq_right hh]

/-- C2. Boundary invariant: after every per-particle update the position
lies in `[0, w] × [0, h]`; a coordinate that leaves the range has its
velocity component multiplied by `-0.5` and the coordinate clamped to the
violated boundary value. -/
theorem boundary_invariant (time w h : ℝ) (m : Mouse) (p : Particle)
    (hw : 0 ≤ w) (hh : 0 ≤ h) :
    (0 ≤ (updateParticle time w h m p).x ∧ (updateParticle time w h m p).x ≤ w ∧
     0 ≤ (updateParticle time w h m p).y ∧ (updateParticle time w h m p).y ≤ h) ∧
    (∀ q : Particle, (q.x < 0 ∨ w < q.x) →
      (bounceX w q).vx = q.vx * (-0.5) ∧ (bounceX w q).x = max 0 (min w q.x) ∧
        (q.x < 0 → (bounceX w q).x = 0) ∧ (w < q.x → (bounceX w q).x = w)) ∧
    (∀ q : Particle, (q.y < 0 ∨ h < q.y) →
      (bounceY h q).vy = q.vy * (-0.5) ∧ (bounceY h q).y = max 0 (min h q.y) ∧
        (q.y < 0 → (bounceY h q).y = 0) ∧ (h < q.y → (bounceY h q).y = h)) := by
  refine ⟨?_, fun q hq => bounceX_of_out w hw q hq, fun q hq => bounceY_of_out h hh q hq⟩
  have hq : updateParticle time w h m p =
      bounceY h (bounceX w (integrateStep (clampStep (frictionStep (springStep
        (mouseStep m (ambientStep time p))))))) := rfl
  rw [hq]
  set r := integrateStep (clampStep (frictionStep (springStep
    (mouseStep m (ambientStep time p))))) with hr
  have hx := bounceX_x_bounds w hw r
  have hy := bounceY_y_bounds h hh (bounceX w r)
  rw [bounceY_x] at *
  exact ⟨hx.1, hx.2, hy.1, hy.2⟩

/-- Witness for C2: surface 100 × 100 and a particle at (-10, -10). -/
theorem boundary_invariant_witness :
    (0 ≤ (updateParticle 0 100 100 initMouse pRest).x ∧
     (updateParticle 0 100 100 initMouse pRest).x ≤ 100 ∧
     0 ≤ (updateParticle 0 100 100 initMouse pRest).y ∧
     (updateParticle 0 100 100 initMouse pRest).y ≤ 100) ∧
    ((bounceX 100 pOut).vx = pOut.vx * (-0.5) ∧
      (bounceX 100 pOut).x = max 0 (min 100 pOut.x) ∧
      (pOut.x < 0 → (bounceX 100 pOut).x = 0) ∧
      (100 < pOut.x → (bounceX 100 pOut).x = 100)) ∧
    ((bounceY 100 pOut).vy = pOut.vy * (-0.5) ∧
      (bounceY 100 pOut).y = max 0 (min 100 pOut.y) ∧
      (pOut.y < 0 → (bounceY 100 pOut).y = 0) ∧
      (100 < pOut.y → (bounceY 100 pOut).y = 100)) := by
  have H := boundary_invariant 0 100 100 initMouse pRest (by norm_num) (by norm_num)
  refine ⟨H.1, H.2.1 pOut (Or.inl ?_), H.2.2 pOut (Or.inl ?_)⟩ <;>
    norm_num [pOut]

/-! ### The pointer force. -/

lemma cos_atan2 (y x : ℝ) (h : ¬(x = 0 ∧ y = 0)) :
    Real.cos (atan2 y x) = x / Real.sqrt (x * x + y * y) := by
  have hz : (⟨x, y⟩ : ℂ) ≠ 0 := by
    intro hz
    rw [Complex.ext_iff] at hz
    exact h ⟨hz.1, hz.2⟩
  rw [atan2, Complex.cos_arg hz, Complex.abs_apply, Complex.normSq_mk]

lemma sin_atan2 (y x : ℝ) :
    Real.sin (atan2 y x) = y / Real.sqrt (x * x + y * y) := by
  rw [atan2, Complex.sin_arg, Complex.abs_apply, Complex.normSq_mk]

lemma distTo_pos_ne {p : Particle} {mx my : ℝ} (h : 0 < distTo p mx my) :
    ¬(mx - p.x = 0 ∧ my - p.y = 0) := by
  rintro ⟨h1, h2⟩
  rw [distTo, h1, h2] at h
  simp at h

lemma mouseStep_none (m : Mouse) (p : Particle) (h : m.pos = none) :
    mouseStep m p = p := by
  unfold mouseStep
  rw [h]

lemma mouseStep_some (m : Mouse) (p : Particle) (mx my : ℝ)
    (h : m.pos = some (mx, my)) :
    mouseStep m p = mouseForce mx my m.isDown m.radius p := by
  unfold mouseStep
  rw [h]

lemma mouseForce_eq (mx my : ℝ) (down : Bool) (radius : ℝ) (p : Particle) :
    mouseForce mx my down radius p =
      if distTo p mx my < radius then
        if down then
          { p with
              vx := p.vx + Real.cos (atan2 (my - p.y) (mx - p.x)) *
                ((radius - distTo p mx my) / radius) * attractionStrength * p.mass,
              vy := p.vy + Real.sin (atan2 (my - p.y) (mx - p.x)) *
                ((radius - distTo p mx my) / radius) * attractionStrength * p.mass }
        else
          { p with
              vx := p.vx - Real.cos (atan2 (my - p.y) (mx - p.x)) *
                ((radius - distTo p mx my) / radius) * 0.3,
              vy := p.vy - Real.sin (atan2 (my - p.y) (mx - p.x)) *
                ((radius - distTo p mx my) / radius) * 0.3 }
      else p := rfl

lemma mouseForce_far (mx my : ℝ) (down : Bool) (radius : ℝ) (p : Particle)
    (h : radius ≤ distTo p mx my) : mouseForce mx my down radius p = p := by
  rw [mouseForce_eq, if_neg (not_lt.mpr h)]

/-- C3. Pointer-force law: with the pointer absent the interaction block
is the identity (not an error); at or beyond the interaction radius it is
also the identity; strictly inside the radius with engaged pointer the
velocity gains the unit vector toward the pointer times the linear-falloff
magnitude `(radius - d) / radius` times `attractionStrength * mass`; with
the pointer present but released the gain is along the exact opposite
direction with factor 0.3, which is the smaller magnitude whenever
`mass > 1/4`; the falloff factor is 0 at `d = radius` and 1 at `d = 0`. -/
theorem pointer_force_law (p : Particle) (m : Mouse) (mx my : ℝ) :
    (m.pos = none → mouseStep m p = p) ∧
    (m.pos = some (mx, my) →
      (m.radius ≤ distTo p mx my → mouseStep m p = p) ∧
      (0 < distTo p mx my → distTo p mx my < m.radius →
        (m.isDown = true →
          (mouseStep m p).vx = p.vx + (mx - p.x) / distTo p mx my *
            ((m.radius - distTo p mx my) / m.radius) * attractionStrength * p.mass ∧
          (mouseStep m p).vy = p.vy + (my - p.y) / distTo p mx my *
            ((m.radius - distTo p mx my) / m.radius) * attractionStrength * p.mass) ∧
        (m.isDown = false →
          ((mouseStep m p).vx = p.vx - (mx - p.x) / distTo p mx my *
            ((m.radius - distTo p mx my) / m.radius) * 0.3 ∧
           (mouseStep m p).vy = p.vy - (my - p.y) / distTo p mx my *
            ((m.radius - distTo p mx my) / m.radius) * 0.3) ∧
          (1/4 < p.mass → 0 < m.radius →
            0.3 * ((m.radius - distTo p mx my) / m.radius) <
              attractionStrength * p.mass * ((m.radius - distTo p mx my) / m.radius))))) ∧
    (0 < m.radius →
      (m.radius - m.radius) / m.radius = 0 ∧ (m.radius - 0) / m.radius = 1) := by
  refine ⟨mouseStep_none m p, ?_, ?_⟩
  · intro hpos
    rw [mouseStep_some m p mx my hpos]
    refine ⟨mouseForce_far mx my m.isDown m.radius p, ?_⟩
    intro hd0 hdr
    have hne := distTo_pos_ne hd0
    have hcos : Real.cos (atan2 (my - p.y) (mx - p.x)) = (mx - p.x) / distTo p mx my :=
      cos_atan2 (my - p.y) (mx - p.x) hne
    have hsin : Real.sin (atan2 (my - p.y) (mx - p.x)) = (my - p.y) / distTo p mx my :=
      sin_atan2 (my - p.y) (mx - p.x)
    constructor
    · intro hdown
      rw [mouseForce_eq, if_pos hdr, hdown, if_pos rfl]
      constructor
      · show p.vx + _ * _ * _ * _ = _
        rw [hcos]
      · show p.vy + _ * _ * _ * _ = _
        rw [hsin]
    · intro hup
      refine ⟨?_, ?_⟩
      · rw [mouseForce_eq, if_pos hdr, hup]
        rw [if_neg (by simp)]
        constructor
        · show p.vx - _ * _ * _ = _
          rw [hcos]
        · show p.vy - _ * _ * _ = _
          rw [hsin]
      · intro hmass hrad
        have hf : 0 < (m.radius - distTo p mx my) / m.radius :=
          div_pos (by linarith) hrad
        have : (0.3 : ℝ) < attractionStrength * p.mass := by
          rw [attractionStrength]
          nlinarith
        nlinarith
  · intro hrad
    constructor
    · rw [sub_self]
      exact zero_div _
    · rw [sub_zero]
      exact div_self (ne_of_gt hrad)

/-- Witness for C3 at the resting particle (distance 50 from the pointer
at (30, 40), radius 150, mass 1/2), exercising the engaged, released,
magnitude-comparison and falloff-endpoint branches. -/
theorem pointer_force_law_witness :
    ((mouseStep mouseEngaged pRest).vx = pRest.vx + (30 - pRest.x) / distTo pRest 30 40 *
        ((mouseEngaged.radius - distTo pRest 30 40) / mouseEngaged.radius) *
        attractionStrength * pRest.mass ∧
      (mouseStep mouseEngaged pRest).vy = pRest.vy + (40 - pRest.y) / distTo pRest 30 40 *
        ((mouseEngaged.radius - distTo pRest 30 40) / mouseEngaged.radius) *
        attractionStrength * pRest.mass) ∧
    ((mouseStep mouseReleased pRest).vx = pRest.vx - (30 - pRest.x) / distTo pRest 30 40 *
        ((mouseReleased.radius - distTo pRest 30 40) / mouseReleased.radius) * 0.3 ∧
      (mouseStep mouseReleased pRest).vy = pRest.vy - (40 - pRest.y) / distTo pRest 30 40 *
        ((mouseReleased.radius - distTo pRest 30 40) / mouseReleased.radius) * 0.3) ∧
    (0.3 * ((mouseReleased.radius - distTo pRest 30 40) / mouseReleased.radius) <
      attractionStrength * pRest.mass *
        ((mouseReleased.radius - distTo pRest 30 40) / mouseReleased.radius)) ∧
    ((mouseEngaged.radius - mouseEngaged.radius) / mouseEngaged.radius = 0 ∧
      (mouseEngaged.radius - 0) / mouseEngaged.radius = 1) := by
  have h50 : Real.sqrt 2500 = 50 := by
    rw [show (2500 : ℝ) = 50 ^ 2 by norm_num]
    exact Real.sqrt_sq (by norm_num)
  have hd : distTo pRest 30 40 = 50 := by
    rw [distTo]
    norm_num [pRest, h50]
  have hd0 : (0 : ℝ) < distTo pRest 30 40 := by
    rw [hd]
    norm_num
  refine ⟨?_, ?_, ?_, ?_⟩
  · exact ((pointer_force_law pRest mouseEngaged 30 40).2.1 rfl).2 hd0
      (by rw [hd]; show (50 : ℝ) < 150; norm_num) |>.1 rfl
  · exact (((pointer_force_law pRest mouseReleased 30 40).2.1 rfl).2 hd0
      (by rw [hd]; show (50 : ℝ) < 150; norm_num) |>.2 rfl).1
  · exact (((pointer_force_law pRest mouseReleased 30 40).2.1 rfl).2 hd0
      (by rw [hd]; show (50 : ℝ) < 150; norm_num) |>.2 rfl).2
      (by show (1 : ℝ)/4 < 1/2; norm_num) (by show (0 : ℝ) < 150; norm_num)
  · exact (pointer_force_law pRest mouseEngaged 30 40).2.2
      (by show (0 : ℝ) < 150; norm_num)

/-- C4. Per-frame update order: the per-particle body is exactly the
pipeline ambient nudge → pointer force → spring-to-origin → friction →
speed clamp → Euler position update → boundary reflection, with the stated
stage formulas and a friction constant strictly below 1. -/
theorem update_order (time w h : ℝ) (m : Mouse) (p : Particle) :
    updateParticle time w h m p =
      bounceStep w h (integrateStep (clampStep (frictionStep (springStep
        (mouseStep m (ambientStep time p)))))) ∧
    (ambientStep time p).vx = p.vx + Real.sin (time * 0.5 + p.phase) * ambientForce ∧
    (ambientStep time p).vy = p.vy + Real.cos (time * 0.3 + p.phase) * ambientForce ∧
    (ambientStep time p).x = p.x ∧ (ambientStep time p).y = p.y ∧
    (springStep p).vx = p.vx + (p.originX - p.x) * returnStrength ∧
    (springStep p).vy = p.vy + (p.originY - p.y) * returnStrength ∧
    (frictionStep p).vx = p.vx * friction ∧
    (frictionStep p).vy = p.vy * friction ∧
    friction < 1 ∧
    (integrateStep p).x = p.x + p.vx ∧
    (integrateStep p).y = p.y + p.vy ∧
    (integrateStep p).vx = p.vx ∧ (integrateStep p).vy = p.vy := by
  refine ⟨rfl, rfl, rfl, rfl, rfl, rfl, rfl, rfl, rfl, ?_, rfl, rfl, rfl, rfl⟩
  norm_num [friction]

/-! ### Connection rendering. -/

lemma linkOf_eq (p q : Particle) :
    linkOf p q =
      if pdist p q < connectionDistance then
        some { x1 := p.x, y1 := p.y, x2 := q.x, y2 := q.y,
               hue := (p.hue + q.hue) / 2,
               opacity := (1 - pdist p q / connectionDistance) * 0.35 }
      else none := rfl

lemma linkOf_isSome_iff (p q : Particle) :
    (linkOf p q).isSome ↔ pdist p q < connectionDistance := by
  rw [linkOf_eq]
  split_ifs with h <;> simp [h]

lemma pdist_nonneg (p q : Particle) : 0 ≤ pdist p q := Real.sqrt_nonneg _

lemma connectionDistance_pos : (0 : ℝ) < connectionDistance := by
  norm_num [connectionDistance]

lemma connOpacity_antitone {d1 d2 : ℝ} (h : d1 ≤ d2) :
    connOpacity d2 ≤ connOpacity d1 := by
  rw [connOpacity, connOpacity]
  have := (div_le_div_iff_of_pos_right connectionDistance_pos).mpr h
  nlinarith

lemma connOpacity_le {d : ℝ} (h : 0 ≤ d) : connOpacity d ≤ 0.35 := by
  rw [connOpacity]
  have : 0 ≤ d / connectionDistance := div_nonneg h connectionDistance_pos.le
  nlinarith

lemma connOpacity_pos {d : ℝ} (h : d < connectionDistance) : 0 < connOpacity d := by
  rw [connOpacity]
  have : d / connectionDistance < 1 := (div_lt_one connectionDistance_pos).mpr h
  nlinarith

lemma linkOf_some {p q : Particle} {c : Connection} (h : linkOf p q = some c) :
    pdist p q < connectionDistance ∧
    c.opacity = connOpacity (pdist p q) ∧ c.hue = (p.hue + q.hue) / 2 := by
  rw [linkOf_eq] at h
  split_ifs at h with hd
  · cases h
    exact ⟨hd, rfl, rfl⟩

lemma mem_drawConnections {c : Connection} :
    ∀ {ps : List Particle}, c ∈ drawConnections ps ↔
      ∃ p q : Particle,
        (∃ s t u : List Particle, ps = s ++ p :: (t ++ q :: u)) ∧
        linkOf p q = some c := by
  intro ps
  induction ps with
  | nil =>
    constructor
    · intro h
      simp [drawConnections] at h
    · rintro ⟨p, q, ⟨s, t, u, hs⟩, -⟩
      simp at hs
  | cons p0 rest ih =>
    constructor
    · intro h
      rcases List.mem_append.mp h with h1 | h2
      · rcases List.mem_filterMap.mp h1 with ⟨q, hq, hlink⟩
        obtain ⟨t, u, htu⟩ := List.append_of_mem hq
        exact ⟨p0, q, ⟨[], t, u, by rw [htu]; rfl⟩, hlink⟩
      · rcases ih.mp h2 with ⟨p, q, ⟨s, t, u, hs⟩, hlink⟩
        exact ⟨p, q, ⟨p0 :: s, t, u, by rw [hs]; rfl⟩, hlink⟩
    · rintro ⟨p, q, ⟨s, t, u, hs⟩, hlink⟩
      cases s with
      | nil =>
        simp only [List.nil_append, List.cons.injEq] at hs
        obtain ⟨hp, hrest⟩ := hs
        apply List.mem_append.mpr
        left
        apply List.mem_filterMap.mpr
        refine ⟨q, ?_, by rw [hp]; exact hlink⟩
        rw [hrest]
        exact List.mem_append_right t (List.mem_cons_self q u)
      | cons a s1 =>
        simp only [List.cons_append, List.cons.injEq] at hs
        obtain ⟨hp0, hrest⟩ := hs
        apply List.mem_append.mpr
        right
        exact ih.mpr ⟨p, q, ⟨s1, t, u, hrest⟩, hlink⟩

/-- C5. Connection rendering: the connection step is a no-op with zero or
one particle; a line for a pair exists exactly when the pair's distance is
strictly below `connectionDistance`; a drawn line carries the opacity
`(1 - distance / connectionDistance) * 0.35` (positive, at most 0.35, an
antitone function of distance that is 0 at `connectionDistance` and
maximal, 0.35, at 0) and the arithmetic-mean hue of its endpoints; and a
line is in the output for the pair list exactly when some `i < j` pair
produces it. -/
theorem connection_rendering (ps : List Particle) (p q : Particle)
    (c : Connection) (d1 d2 : ℝ) :
    (drawConnections [] = [] ∧ ∀ r : Particle, drawConnections [r] = []) ∧
    ((linkOf p q).isSome ↔ pdist p q < connectionDistance) ∧
    (linkOf p q = some c →
      c.opacity = connOpacity (pdist p q) ∧ c.hue = (p.hue + q.hue) / 2 ∧
        0 < c.opacity) ∧
    (connOpacity connectionDistance = 0 ∧ connOpacity 0 = 0.35) ∧
    (0 ≤ d1 → d1 ≤ d2 →
      connOpacity d2 ≤ connOpacity d1 ∧ connOpacity d1 ≤ 0.35) ∧
    (c ∈ drawConnections ps ↔ ∃ a b : Particle,
      (∃ s t u : List Particle, ps = s ++ a :: (t ++ b :: u)) ∧
      linkOf a b = some c) := by
  refine ⟨⟨rfl, fun r => by simp [drawConnections]⟩, linkOf_isSome_iff p q, ?_, ?_, ?_,
    mem_drawConnections⟩
  · intro h
    obtain ⟨hd, hop, hhue⟩ := linkOf_some h
    exact ⟨hop, hhue, by rw [hop]; exact connOpacity_pos hd⟩
  · constructor
    · rw [connOpacity, div_self connectionDistance_pos.ne']
      ring
    · rw [connOpacity]
      norm_num
  · intro h1 h2
    exact ⟨connOpacity_antitone h2, connOpacity_le h1⟩

/-- Witness for C5: `pRest` and `pB` are 50 apart, their line is `cEx`,
and the antitone bound holds at distances 0 and 50. -/
theorem connection_rendering_witness :
    (cEx.opacity = connOpacity (pdist pRest pB) ∧
      cEx.hue = (pRest.hue + pB.hue) / 2 ∧ 0 < cEx.opacity) ∧
    (connOpacity 50 ≤ connOpacity 0 ∧ connOpacity 0 ≤ 0.35) := by
  have h50 : Real.sqrt 2500 = 50 := by
    rw [show (2500 : ℝ) = 50 ^ 2 by norm_num]
    exact Real.sqrt_sq (by norm_num)
  have hd : pdist pRest pB = 50 := by
    rw [pdist]
    norm_num [pRest, pB, h50]
  have hlink : linkOf pRest pB = some cEx := by
    rw [linkOf_eq, if_pos (by rw [hd]; norm_num [connectionDistance])]
    rw [hd]
    show some _ = some cEx
    rw [cEx]
    norm_num [pRest, pB, connectionDistance]
  exact ⟨(connection_rendering [] pRest pB cEx 0 50).2.2.1 hlink,
    (connection_rendering [] pRest pB cEx 0 50).2.2.2.2.1 le_rfl (by norm_num)⟩

/-! ### Frame-loop flag and scheduling. -/

lemma stop_isRunning (s : Sim) : (stop s).isRunning = false := by
  cases s with
  | mk run aid pend nid ps =>
    cases aid with
    | none => rfl
    | some id => by_cases hp : pend = some id <;> simp [stop, hp]

lemma stop_animationId (s : Sim) : (stop s).animationId = s.animationId := by
  cases s with
  | mk run aid pend nid ps =>
    cases aid with
    | none => rfl
    | some id => by_cases hp : pend = some id <;> simp [stop, hp]

lemma stop_pending_ne (s : Sim) (id : ℕ) (h : s.animationId = some id) :
    (stop s).pending ≠ some id := by
  cases s with
  | mk run aid pend nid ps =>
    simp only [] at h
    subst h
    by_cases hp : pend = some id <;> simp [stop, hp]

lemma stop_stop (s : Sim) : stop (stop s) = stop s := by
  cases s with
  | mk run aid pend nid ps =>
    cases aid with
    | none => rfl
    | some id =>
      unfold stop
      by_cases hp : pend = some id <;> simp [hp]

/-- C7. `start()` while running is a no-op; a second `stop()` changes
nothing; `stop()` clears the active flag and cancels the pending frame
callback; `start()` while stopped raises the flag and schedules the next
step. -/
theorem start_stop_idempotent (time w h : ℝ) (m : Mouse) (s : Sim) :
    (s.isRunning = true → start time w h m s = s) ∧
    stop (stop s) = stop s ∧
    (stop s).isRunning = false ∧
    (∀ id : ℕ, s.animationId = some id → (stop s).pending ≠ some id) ∧
    (s.isRunning = false →
      (start time w h m s).isRunning = true ∧
      (start time w h m s).pending = some s.nextId ∧
      (start time w h m s).animationId = some s.nextId) := by
  refine ⟨?_, stop_stop s, stop_isRunning s, stop_pending_ne s, ?_⟩
  · intro h
    unfold start
    rw [h]
    rfl
  · intro h
    unfold start animate
    rw [h]
    simp

/-- Witness for C7 on a concrete running state with a pending frame, and a
concrete stopped state. -/
theorem start_stop_idempotent_witness :
    start 0 100 100 initMouse ⟨true, some 3, some 3, 4, []⟩ = ⟨true, some 3, some 3, 4, []⟩ ∧
    ((stop ⟨true, some 3, some 3, 4, []⟩).pending ≠ some 3) ∧
    ((start 0 100 100 initMouse ⟨false, some 3, none, 4, []⟩).isRunning = true ∧
      (start 0 100 100 initMouse ⟨false, some 3, none, 4, []⟩).pending = some 4 ∧
      (start 0 100 100 initMouse ⟨false, some 3, none, 4, []⟩).animationId = some 4) := by
  refine ⟨(start_stop_idempotent 0 100 100 initMouse ⟨true, some 3, some 3, 4, []⟩).1 rfl,
    (start_stop_idempotent 0 100 100 initMouse ⟨true, some 3, some 3, 4, []⟩).2.2.2.1 3 rfl,
    (start_stop_idempotent 0 100 100 initMouse ⟨false, some 3, none, 4, []⟩).2.2.2.2 rfl⟩

end ParticlePhysics

/-! ### Resize debounce. -/

namespace ResizeDebounce

open ParticlePhysics

lemma reseedTimes_single (t : ℕ) : reseedTimes [t] = [t + debounceDelay] := rfl

lemma reseedTimes_coalesce :
    ∀ (ts : List ℕ), ts ≠ [] →
      ts.Chain' (fun a b => b < a + debounceDelay) → (reseedTimes ts).length = 1 := by
  intro ts
  induction ts with
  | nil => intro h _; exact absurd rfl h
  | cons t rest ih =>
    intro _ hchain
    cases rest with
    | nil => rfl
    | cons t1 rest1 =>
      rw [List.chain'_cons] at hchain
      have hstep : reseedTimes (t :: t1 :: rest1) = reseedTimes (t1 :: rest1) := by
        rw [show reseedTimes (t :: t1 :: rest1) =
          if t1 < t + debounceDelay then reseedTimes (t1 :: rest1)
          else (t + debounceDelay) :: reseedTimes (t1 :: rest1) from rfl,
          if_pos hchain.1]
      rw [hstep]
      exact ih (List.cons_ne_nil t1 rest1) hchain.2

/-- C6. Resize debounce and full re-seed: a nonempty burst of resize
events, each arriving strictly before the previous event's timer fires,
produces exactly one re-seed; the debounced callback rebuilds the state
from the new dimensions alone — the prior particle collection is not read
— and the fresh collection has `particleCount` newly sampled particles at
rest at their own origins. -/
theorem resize_debounce_reseed (ts : List ℕ) (rng : ℕ → ℝ)
    (s s2 : PState) (newW newH : ℝ) :
    (ts ≠ [] → ts.Chain' (fun a b => b < a + debounceDelay) →
      (reseedTimes ts).length = 1) ∧
    (handleResize rng newW newH s).particles = createParticles rng newW newH ∧
    handleResize rng newW newH s = handleResize rng newW newH s2 ∧
    (createParticles rng newW newH).length = particleCount ∧
    (∀ p ∈ createParticles rng newW newH,
      p.vx = 0 ∧ p.vy = 0 ∧ p.originX = p.x ∧ p.originY = p.y) := by
  refine ⟨reseedTimes_coalesce ts, rfl, rfl, by simp [createParticles], ?_⟩
  intro p hp
  rw [createParticles] at hp
  rcases List.mem_map.mp hp with ⟨i, -, hi⟩
  rw [← hi]
  exact ⟨rfl, rfl, rfl, rfl⟩

/-- Witness for C6: ten resize events 10 ms apart coalesce to one timer. -/
theorem resize_debounce_reseed_witness :
    (reseedTimes [0, 10, 20, 30, 40, 50, 60, 70, 80, 90]).length = 1 ∧
    (handleResize (fun _ => 0) 640 480 ⟨0, 0, []⟩).particles =
      createParticles (fun _ => 0) 640 480 := by
  refine ⟨(resize_debounce_reseed [0, 10, 20, 30, 40, 50, 60, 70, 80, 90]
    (fun _ => 0) ⟨0, 0, []⟩ ⟨0, 0, []⟩ 640 480).1 (by simp) ?_,
    (resize_debounce_reseed [] (fun _ => 0) ⟨0, 0, []⟩ ⟨0, 0, []⟩ 640 480).2.1⟩
  norm_num [List.chain'_cons, List.chain'_singleton, debounceDelay]

end ResizeDebounce

namespace ParticlePhysics

/-- Witness for C1 at a concrete fast particle: velocity (6, 8) has speed
10 > 8 and the clamp rescales it to magnitude exactly 8. -/
theorem speed_clamp_invariant_witness :
    speed (clampStep pFast) = maxSpeed ∧
      ∃ c : ℝ, 0 < c ∧ (clampStep pFast).vx = c * pFast.vx ∧
        (clampStep pFast).vy = c * pFast.vy := by
  refine (speed_clamp_invariant 0 100 100 initMouse pFast).2 ?_
  have h100 : Real.sqrt 100 = 10 := by
    rw [show (100 : ℝ) = 10 ^ 2 by norm_num]
    exact Real.sqrt_sq (by norm_num)
  have : speed pFast = 10 := by
    rw [speed_def]
    norm_num [pFast, h100]
  rw [this, maxSpeed]
  norm_num

end ParticlePhysics

/-! ### Scroll reveal observer. -/

namespace ScrollAnimator

lemma processEntry_visible_mono (s : Reveal) (e : ℕ) (b : Bool) (x : ℕ)
    (h : s.visible x = true) : (processEntry s e b).visible x = true := by
  unfold processEntry
  split_ifs with hc
  · show (if x = e then true else s.visible x) = true
    split_ifs <;> simp [h]
  · exact h

lemma processEntry_observed_mono (s : Reveal) (e : ℕ) (b : Bool) (x : ℕ)
    (h : s.observed x = false) : (processEntry s e b).observed x = false := by
  unfold processEntry
  split_ifs with hc
  · show (if x = e then false else s.observed x) = false
    split_ifs <;> simp [h]
  · exact h

lemma processEntries_visible_mono (s : Reveal) (e : ℕ) :
    ∀ (evs : List (ℕ × Bool)), s.visible e = true →
      (processEntries s evs).visible e = true := by
  intro evs
  induction evs generalizing s with
  | nil => intro h; exact h
  | cons ev rest ih =>
    intro h
    exact ih _ (processEntry_visible_mono s ev.1 ev.2 e h)

lemma processEntries_observed_mono (s : Reveal) (e : ℕ) :
    ∀ (evs : List (ℕ × Bool)), s.observed e = false →
      (processEntries s evs).observed e = false := by
  intro evs
  induction evs generalizing s with
  | nil => intro h; exact h
  | cons ev rest ih =>
    intro h
    exact ih _ (processEntry_observed_mono s ev.1 ev.2 e h)

lemma processEntry_flip_unobserves (s : Reveal) (e' : ℕ) (b : Bool) (e : ℕ)
    (h0 : s.visible e = false) (h1 : (processEntry s e' b).visible e = true) :
    (processEntry s e' b).observed e = false := by
  unfold processEntry at h1 ⊢
  split_ifs at h1 ⊢ with hc
  · simp only [] at h1 ⊢
    by_cases hee : e = e'
    · simp [hee]
    · simp [hee] at h1
      simp [hee]
      exact absurd h1 (by simp [h0])
  · exact absurd h1 (by simp [h0])

lemma processEntries_visible_of_mem (e : ℕ) :
    ∀ (evs : List (ℕ × Bool)) (s : Reveal), s.observed e = true →
      (e, true) ∈ evs → (processEntries s evs).visible e = true := by
  intro evs
  induction evs with
  | nil =>
    intro s _ hmem
    simp at hmem
  | cons ev rest ih =>
    intro s hobs hmem
    rcases List.mem_cons.mp hmem with heq | hmem1
    · have h1 : (processEntry s ev.1 ev.2).visible e = true := by
        rw [← heq]
        unfold processEntry
        rw [hobs]
        simp
      exact processEntries_visible_mono _ e rest h1
    · by_cases hcase : (processEntry s ev.1 ev.2).observed e = true
      · exact ih _ hcase hmem1
      · have hvis : (processEntry s ev.1 ev.2).visible e = true := by
          unfold processEntry at hcase ⊢
          split_ifs at hcase ⊢ with hc
          · simp only [] at hcase ⊢
            by_cases hee : e = ev.1
            · simp [hee]
            · simp [hee, hobs] at hcase
          · exact absurd hobs hcase
        exact processEntries_visible_mono _ e rest hvis

lemma transitionCount_zero_of_visible (e : ℕ) :
    ∀ (evs : List (ℕ × Bool)) (s : Reveal), s.visible e = true →
      transitionCount s e evs = 0 := by
  intro evs
  induction evs with
  | nil => intro s _; rfl
  | cons ev rest ih =>
    intro s h
    show (if s.visible e = false ∧ (processEntry s ev.1 ev.2).visible e = true
        then 1 else 0) + transitionCount (processEntry s ev.1 ev.2) e rest = 0
    rw [if_neg (by simp [h]), ih _ (processEntry_visible_mono s ev.1 ev.2 e h)]

lemma transitionCount_le_one (e : ℕ) :
    ∀ (evs : List (ℕ × Bool)) (s : Reveal), transitionCount s e evs ≤ 1 := by
  intro evs
  induction evs with
  | nil => intro s; exact Nat.zero_le 1
  | cons ev rest ih =>
    intro s
    show (if s.visible e = false ∧ (processEntry s ev.1 ev.2).visible e = true
        then 1 else 0) + transitionCount (processEntry s ev.1 ev.2) e rest ≤ 1
    split_ifs with hflip
    · rw [transitionCount_zero_of_visible e rest _ hflip.2]
    · rw [Nat.zero_add]
      exact ih _

lemma visible_of_transitionCount_zero (e : ℕ) :
    ∀ (evs : List (ℕ × Bool)) (s : Reveal), transitionCount s e evs = 0 →
      s.visible e = false → (processEntries s evs).visible e = false := by
  intro evs
  induction evs with
  | nil => intro s _ h0; exact h0
  | cons ev rest ih =>
    intro s hcount h0
    replace hcount : (if s.visible e = false ∧ (processEntry s ev.1 ev.2).visible e = true
        then 1 else 0) + transitionCount (processEntry s ev.1 ev.2) e rest = 0 := hcount
    split_ifs at hcount with hflip
    · exact absurd hcount (by simp)
    · rw [Nat.zero_add] at hcount
      have h1 : (processEntry s ev.1 ev.2).visible e = false := by
        by_cases hv : (processEntry s ev.1 ev.2).visible e = true
        · exact absurd ⟨h0, hv⟩ hflip
        · simpa using hv
      exact ih _ hcount h1

/-- C8. One-shot reveal: an element's visible flag never reverts once set;
it flips false→true at most once along any event run, and exactly once when
the element starts unrevealed and observed and some delivered entry for it
intersects; an element that stops being observed is never re-observed; and
the flip itself unobserves the element. -/
theorem one_shot_reveal (s : Reveal) (e : ℕ) (evs : List (ℕ × Bool)) :
    (s.visible e = true → (processEntries s evs).visible e = true) ∧
    transitionCount s e evs ≤ 1 ∧
    (s.visible e = false → s.observed e = true → (e, true) ∈ evs →
      (processEntries s evs).visible e = true ∧ transitionCount s e evs = 1) ∧
    (s.observed e = false → (processEntries s evs).observed e = false) ∧
    (∀ e' b, s.visible e = false → (processEntry s e' b).visible e = true →
      (processEntry s e' b).observed e = false) := by
  refine ⟨processEntries_visible_mono s e evs, transitionCount_le_one e evs s, ?_,
    processEntries_observed_mono s e evs,
    fun e' b h0 h1 => processEntry_flip_unobserves s e' b e h0 h1⟩
  intro hvis hobs hmem
  have hfinal := processEntries_visible_of_mem e evs s hobs hmem
  refine ⟨hfinal, ?_⟩
  have hle := transitionCount_le_one e evs s
  have hne : transitionCount s e evs ≠ 0 := by
    intro h0
    have := visible_of_transitionCount_zero e evs s h0 hvis
    rw [hfinal] at this
    simp at this
  omega

/-- Witness for C8: all-unrevealed, all-observed initial state, element 0,
events: a non-intersecting entry then two intersecting ones — the flag
flips exactly once. -/
theorem one_shot_reveal_witness :
    (processEntries ⟨fun _ => false, fun _ => true⟩ [(0, false), (0, true), (0, true)]).visible 0
        = true ∧
      transitionCount ⟨fun _ => false, fun _ => true⟩ 0 [(0, false), (0, true), (0, true)] = 1 := by
  exact (one_shot_reveal ⟨fun _ => false, fun _ => true⟩ 0
    [(0, false), (0, true), (0, true)]).2.2.1 rfl rfl (by simp)

end ScrollAnimator

/-! ### Pointer-state persistence. -/

namespace ParticlePhysics

lemma handleEvent_pos_isSome (m : Mouse) (ev : PEvent)
    (h : m.pos.isSome = true) : (handleEvent m ev).pos.isSome = true := by
  cases ev with
  | mouseDown x y => rfl
  | mouseMove x y => rfl
  | mouseUp => exact h
  | mouseLeave => exact h
  | touchEnd => exact h
  | touchStart t =>
    cases t with
    | none => exact h
    | some xy =>
      obtain ⟨x, y⟩ := xy
      rfl
  | touchMove t =>
    cases t with
    | none => exact h
    | some xy =>
      obtain ⟨x, y⟩ := xy
      rfl

lemma handleEvents_pos_isSome (evs : List PEvent) :
    ∀ m : Mouse, m.pos.isSome = true → (handleEvents m evs).pos.isSome = true := by
  induction evs with
  | nil => intro m h; exact h
  | cons ev rest ih =>
    intro m h
    exact ih _ (handleEvent_pos_isSome m ev h)

lemma mouseStep_repel (m : Mouse) (p : Particle) (mx my : ℝ)
    (hpos : m.pos = some (mx, my)) (hup : m.isDown = false)
    (hd0 : 0 < distTo p mx my) (hdr : distTo p mx my < m.radius) :
    (mouseStep m p).vx = p.vx - (mx - p.x) / distTo p mx my *
      ((m.radius - distTo p mx my) / m.radius) * 0.3 ∧
    (mouseStep m p).vy = p.vy - (my - p.y) / distTo p mx my *
      ((m.radius - distTo p mx my) / m.radius) * 0.3 := by
  have hne := distTo_pos_ne hd0
  rw [mouseStep_some m p mx my hpos, mouseForce_eq, if_pos hdr, hup, if_neg (by simp)]
  constructor
  · show p.vx - _ * _ * _ = _
    rw [cos_atan2 (my - p.y) (mx - p.x) hne]
    rw [distTo]
  · show p.vy - _ * _ * _ = _
    rw [sin_atan2 (my - p.y) (mx - p.x)]
    rw [distTo]

/-- C10. Pointer absence is never restored: once any handler has stored a
pointer position, no event handler resets it (the release handlers clear
only the engaged flag), so a present, disengaged pointer still exerts the
nonzero repulsion force on any particle strictly inside its radius. -/
theorem pointer_position_persists (m : Mouse) (evs : List PEvent)
    (p : Particle) (mx my : ℝ) :
    (m.pos.isSome = true → (handleEvents m evs).pos.isSome = true) ∧
    (handleEvent m PEvent.mouseUp = { m with isDown := false } ∧
     handleEvent m PEvent.mouseLeave = { m with isDown := false } ∧
     handleEvent m PEvent.touchEnd = { m with isDown := false }) ∧
    (m.pos = some (mx, my) → m.isDown = false → 0 < distTo p mx my →
      distTo p mx my < m.radius →
      ((mouseStep m p).vx = p.vx - (mx - p.x) / distTo p mx my *
         ((m.radius - distTo p mx my) / m.radius) * 0.3 ∧
       (mouseStep m p).vy = p.vy - (my - p.y) / distTo p mx my *
         ((m.radius - distTo p mx my) / m.radius) * 0.3) ∧
      mouseStep m p ≠ p) := by
  refine ⟨handleEvents_pos_isSome evs m, ⟨rfl, rfl, rfl⟩, ?_⟩
  intro hpos hup hd0 hdr
  have hrepel := mouseStep_repel m p mx my hpos hup hd0 hdr
  refine ⟨hrepel, ?_⟩
  intro heq
  have hrad : 0 < m.radius := hd0.trans hdr
  have hf : 0 < (m.radius - distTo p mx my) / m.radius :=
    div_pos (by linarith) hrad
  have hdne : distTo p mx my ≠ 0 := ne_of_gt hd0
  have hvx : (mouseStep m p).vx = p.vx := by rw [heq]
  have hvy : (mouseStep m p).vy = p.vy := by rw [heq]
  rw [hrepel.1] at hvx
  rw [hrepel.2] at hvy
  have hzx : (mx - p.x) / distTo p mx my *
      ((m.radius - distTo p mx my) / m.radius) * 0.3 = 0 := by
    have := sub_eq_self.mp hvx
    linarith [this]
  have hzy : (my - p.y) / distTo p mx my *
      ((m.radius - distTo p mx my) / m.radius) * 0.3 = 0 := by
    have := sub_eq_self.mp hvy
    linarith [this]
  have hx0 : mx - p.x = 0 := by
    rcases mul_eq_zero.mp hzx with h3 | h3
    · rcases mul_eq_zero.mp h3 with h4 | h4
      · rcases div_eq_zero_iff.mp h4 with h5 | h5
        · exact h5
        · exact absurd h5 hdne
      · exact absurd h4 (ne_of_gt hf)
    · norm_num at h3
  have hy0 : my - p.y = 0 := by
    rcases mul_eq_zero.mp hzy with h3 | h3
    · rcases mul_eq_zero.mp h3 with h4 | h4
      · rcases div_eq_zero_iff.mp h4 with h5 | h5
        · exact h5
        · exact absurd h5 hdne
      · exact absurd h4 (ne_of_gt hf)
    · norm_num at h3
  exact distTo_pos_ne hd0 ⟨hx0, hy0⟩

/-- Witness for C10: the released pointer at (30, 40) still repels `pRest`
after a mouseup, a mouseleave and a touchend. -/
theorem pointer_position_persists_witness :
    (handleEvents mouseReleased [PEvent.mouseUp, PEvent.mouseLeave, PEvent.touchEnd]).pos.isSome
        = true ∧
      mouseStep mouseReleased pRest ≠ pRest := by
  have h50 : Real.sqrt 2500 = 50 := by
    rw [show (2500 : ℝ) = 50 ^ 2 by norm_num]
    exact Real.sqrt_sq (by norm_num)
  have hd : distTo pRest 30 40 = 50 := by
    rw [distTo]
    norm_num [pRest, h50]
  exact ⟨(pointer_position_persists mouseReleased
      [PEvent.mouseUp, PEvent.mouseLeave, PEvent.touchEnd] pRest 30 40).1 rfl,
    ((pointer_position_persists mouseReleased
      [PEvent.mouseUp, PEvent.mouseLeave, PEvent.touchEnd] pRest 30 40).2.2 rfl rfl
      (by rw [hd]; norm_num) (by rw [hd]; show (50 : ℝ) < 150; norm_num)).2⟩

end ParticlePhysics

/-! ### Theme interpolation. -/

namespace ThemeSlider

/-- C9. Theme interpolation endpoints and linearity: at parameter 0 the
blend is exactly the first color and at 1 exactly the second, in RGB and in
RGBA space; every component is the linear blend `(1-t)·A + t·B`; a slider
value in `[0, 100]` maps to `t = value/100 ∈ [0, 1]`, with the endpoint
slider values 0 and 100 reproducing the two colors exactly. -/
theorem theme_interpolation (cA cB : RGB) (dA dB : RGBA) (t value : ℚ) :
    interpolate cA cB 0 = cA ∧ interpolate cA cB 1 = cB ∧
    interpolateA dA dB 0 = dA ∧ interpolateA dA dB 1 = dB ∧
    ((interpolate cA cB t).r = (1 - t) * cA.r + t * cB.r ∧
     (interpolate cA cB t).g = (1 - t) * cA.g + t * cB.g ∧
     (interpolate cA cB t).b = (1 - t) * cA.b + t * cB.b) ∧
    ((interpolateA dA dB t).r = (1 - t) * dA.r + t * dB.r ∧
     (interpolateA dA dB t).a = (1 - t) * dA.a + t * dB.a) ∧
    (0 ≤ value → value ≤ 100 → 0 ≤ tOfValue value ∧ tOfValue value ≤ 1) ∧
    (interpolate cA cB (tOfValue 0) = cA ∧ interpolate cA cB (tOfValue 100) = cB) := by
  have h0 : ∀ a b : RGB, interpolate a b 0 = a := by
    intro a b
    ext <;> simp [interpolate]
  have h1 : ∀ a b : RGB, interpolate a b 1 = b := by
    intro a b
    ext <;> simp [interpolate]
  refine ⟨h0 cA cB, h1 cA cB, by ext <;> simp [interpolateA],
    by ext <;> simp [interpolateA], ⟨by show cA.r + _ * _ = _; ring,
    by show cA.g + _ * _ = _; ring, by show cA.b + _ * _ = _; ring⟩,
    ⟨by show dA.r + _ * _ = _; ring, by show dA.a + _ * _ = _; ring⟩, ?_, ?_, ?_⟩
  · intro hlo hhi
    constructor
    · exact div_nonneg hlo (by norm_num)
    · rw [tOfValue, div_le_one (by norm_num)]
      linarith
  · rw [show tOfValue 0 = 0 by norm_num [tOfValue]]
    exact h0 cA cB
  · rw [show tOfValue 100 = 1 by norm_num [tOfValue]]
    exact h1 cA cB

/-- Witness for C9 at slider value 50. -/
theorem theme_interpolation_witness :
    0 ≤ tOfValue 50 ∧ tOfValue 50 ≤ 1 :=
  (theme_interpolation ⟨0, 0, 0⟩ ⟨1, 1, 1⟩ ⟨0, 0, 0, 0⟩ ⟨1, 1, 1, 1⟩ 0 50).2.2.2.2.2.2.1
    (by norm_num) (by norm_num)

end ThemeSlider
